import Mathlib

/-!
# Verification of the pyinhdl preprocessor core

A shallow embedding of `pyinhdl.py`: the snippet evaluator (`exec_inline`,
`exec_block`), the context setup (`pre_context_run`), the indentation helper
(`add_space`) and the line-scanner state machine (`parse`).

Strings are modelled as `List Char`.  The execution of an arbitrary embedded
Python fragment cannot itself be embedded, so it is abstracted as an oracle:
a function from the shared context to a new context, the text the fragment
prints to whatever stream is currently installed as the standard output, and
either a resulting value or a raised exception.  Everything around the
oracle — mode dispatch, stream redirection, capture, splicing, the scanner
transitions, the context lifecycle — is translated directly from the source.
-/

/-- Strings of the modelled program, as lists of characters. -/
abbrev Str := List Char

/-- The marker character, a backquote (code point 96). -/
def tick : Char := Char.ofNat 96

/-- The whitespace characters stripped by Python str.strip / lstrip
(space, tab, newline, carriage return, vertical tab, form feed). -/
def isPyWs (c : Char) : Bool :=
  (c == ' ') || (c == '\t') || (c == '\n') || (c == '\r') ||
  (c == Char.ofNat 11) || (c == Char.ofNat 12)

/-- Python s.strip(): remove leading and trailing whitespace. -/
def pyStrip (s : Str) : Str :=
  ((s.dropWhile isPyWs).reverse.dropWhile isPyWs).reverse

/-- Python len(l) - len(l.lstrip()): the number of leading whitespace
characters; used at line 122 of the source to record the indentation. -/
def leadWsCount (s : Str) : Nat := (s.takeWhile isPyWs).length

/-- Python `"backquote" in l`: does the line contain the marker character? -/
def hasTick : Str → Bool
  | [] => false
  | c :: rest => (c == tick) || hasTick rest

/-- Python l.strip().startswith("3 backquotes"): the fence test used both to
open (line 120) and to close (line 141) a block. -/
def startsFence (l : Str) : Bool :=
  match pyStrip l with
  | a :: b :: c :: _ => (a == tick) && (b == tick) && (c == tick)
  | _ => false

/-- Python "".rjust(n): n space characters. -/
def spacesN (n : Nat) : Str := List.replicate n ' '

/-- The `if not res: res = ""` normalisation at lines 131-132 and 143-144 of
the source: on a string, falsy means empty. -/
def orEmpty (r : Str) : Str := if r = [] then [] else r

/-- Python s.split("newline"). -/
def splitNl : Str → List Str
  | [] => [[]]
  | c :: rest =>
    if c == '\n' then [] :: splitNl rest
    else
      match splitNl rest with
      | [] => [[c]]
      | x :: xs => (c :: x) :: xs

/-- The loop body of add_space (source lines 107-113): skip blank lines,
prepend the recorded indentation to the others and terminate each with a
newline. -/
def addSpaceGo (w : Nat) : List Str → Str
  | [] => []
  | i :: rest =>
    if pyStrip i = [] then addSpaceGo w rest
    else spacesN w ++ i ++ '\n' :: addSpaceGo w rest

/-- add_space(s, _indentation) from the source (lines 107-113). -/
def add_space (s : Str) (w : Nat) : Str := addSpaceGo w (splitNl s)

/-- Exceptions raised by embedded Python code, by message. -/
abbrev PyExn := Str

/-- Python values, as far as the evaluator's result conversion needs them. -/
inductive PyVal : Type where
  | pyNone : PyVal
  | pyBool (b : Bool) : PyVal
  | pyInt (i : Int) : PyVal
  | pyStrV (s : Str) : PyVal
deriving DecidableEq

/-- Python str(v): the text spliced for an inline expression result. -/
def pyStr : PyVal → Str
  | .pyNone => "None".toList
  | .pyBool true => "True".toList
  | .pyBool false => "False".toList
  | .pyInt i => (toString i).toList
  | .pyStrV s => s

/-- Python truthiness of a value. -/
def pyTruthy : PyVal → Bool
  | .pyNone => false
  | .pyBool b => b
  | .pyInt i => decide (i ≠ 0)
  | .pyStrV s => !s.isEmpty

/-- Where sys.stdout currently points: the process's real standard output,
or an in-memory capture buffer holding the text printed into it so far. -/
inductive StdoutTgt : Type where
  | real : StdoutTgt
  | buf (content : Str) : StdoutTgt
deriving DecidableEq

/-- An inline fragment, abstracted: whether compile(src, "eval") succeeds
(expression mode), and the semantics of running its code — given the shared
context it yields the new context, the text it prints to the currently
installed standard output, and a value or a raised exception. -/
structure Frag (G : Type) where
  isExpr : Bool
  run : G → G × Str × Except PyExn PyVal

instance {ε α : Type} [DecidableEq ε] [DecidableEq α] : DecidableEq (Except ε α) :=
  fun x y =>
    match x, y with
    | .ok a, .ok b =>
      if h : a = b then isTrue (by rw [h])
      else isFalse (fun hc => h (by injection hc))
    | .error a, .error b =>
      if h : a = b then isTrue (by rw [h])
      else isFalse (fun hc => h (by injection hc))
    | .ok _, .error _ => isFalse (fun hc => Except.noConfusion hc)
    | .error _, .ok _ => isFalse (fun hc => Except.noConfusion hc)

/-- Everything observable about one evaluator call: the context afterwards,
where sys.stdout points when the call returns or its exception escapes, the
text that reached the process's real standard output during the call, and
the returned replacement text or the escaped exception. -/
structure EvalOutcome (G : Type) where
  ctx : G
  stdoutAfter : StdoutTgt
  realOut : Str
  result : Except PyExn Str
deriving DecidableEq

/-- exec_inline (source lines 48-68).  Expression branch: eval with no
redirection, return str of the value.  Statement branch: set sys.stdout to a
fresh buffer, exec, read the buffer, close it, restore sys.stdout — the
restore (line 67) is only reached when exec did not raise, so on the error
path sys.stdout is left pointing at the capture buffer. -/
def exec_inline {G : Type} (f : Frag G) (g : G) (so : StdoutTgt) : EvalOutcome G :=
  if f.isExpr then
    let (g', printed, r) := f.run g
    match so with
    | .real => ⟨g', .real, printed, r.map pyStr⟩
    | .buf c => ⟨g', .buf (c ++ printed), [], r.map pyStr⟩
  else
    let (g', printed, r) := f.run g
    match r with
    | .error e => ⟨g', .buf printed, [], .error e⟩
    | .ok _ => ⟨g', so, [], .ok printed⟩

/-- exec_block (source lines 70-81): always the statement branch with
capture; the restore at line 79 is likewise skipped when exec raises. -/
def exec_block {G : Type} (run : G → G × Str × Except PyExn PyVal)
    (g : G) (so : StdoutTgt) : EvalOutcome G :=
  let (g', printed, r) := run g
  match r with
  | .error e => ⟨g', .buf printed, [], .error e⟩
  | .ok _ => ⟨g', so, [], .ok printed⟩

/-- The sys.path effect of pre_context_run (source lines 83-91): for each
given path, in order, execute sys.path.insert(0, path). -/
def pre_context_run (import_pathes : List Str) (sys_path : List Str) : List Str :=
  import_pathes.foldl (fun sp p => p :: sp) sys_path

/-- The inline-evaluation oracle the scanner threads through a document:
fragment source text and context in, new context and replacement text or
exception out. -/
abbrev Ev (G : Type) := Str → G → G × Except PyExn Str

/-- An oracle obtained by running exec_inline on the fragment's semantics,
with the process's real standard output installed — exactly how parse calls
it at top level. -/
def inlineOracle {G : Type} (sem : Str → Frag G) : Ev G := fun src g =>
  let o := exec_inline (sem src) g .real
  (o.ctx, o.result)

/-- The two scanner states of parse: "hdl" (plain text) and "block". -/
inductive SState : Type where
  | hdl : SState
  | block : SState
deriving DecidableEq

/-- How a document pass ends abnormally: an exception escaping from a
snippet, or the SyntaxError of line 154 for an unclosed block. -/
inductive PErr : Type where
  | pyRaise (e : PyExn) : PErr
  | unclosed : PErr
deriving DecidableEq

/-- The inline-substitution scan of source lines 125-135: walk the line;
outside a fragment (`none`) literal characters pass through and a marker
opens a fragment; inside a fragment (`some acc`, interior accumulated in
reverse) a marker closes it — the interior is evaluated and its (falsy
normalised) result spliced — and if the line ends first the unpaired marker
and the text after it are emitted literally (the final `ans += l[pos:]`).
An exception escaping a fragment aborts the whole line. -/
def substGo {G : Type} (ev : Ev G) : Str → Option Str → G → G × Except PyExn Str
  | [], none, g => (g, Except.ok [])
  | [], some acc, g => (g, Except.ok (tick :: acc.reverse))
  | c :: rest, none, g =>
    if c == tick then substGo ev rest (some []) g
    else
      match substGo ev rest none g with
      | (g2, Except.error e) => (g2, Except.error e)
      | (g2, Except.ok tl) => (g2, Except.ok (c :: tl))
  | c :: rest, some acc, g =>
    if c == tick then
      match ev acc.reverse g with
      | (g1, Except.error e) => (g1, Except.error e)
      | (g1, Except.ok r) =>
        match substGo ev rest none g1 with
        | (g2, Except.error e) => (g2, Except.error e)
        | (g2, Except.ok tl) => (g2, Except.ok (orEmpty r ++ tl))
    else substGo ev rest (some (c :: acc)) g

/-- The reconstruction of one marker-bearing line (source lines 125-135). -/
def substInline {G : Type} (ev : Ev G) (l : Str) (g : G) :
    G × Except PyExn Str :=
  substGo ev l none g

/-- The whole mutable state of one pass of parse: scanner state, the
accumulated block body, the recorded indentation, the shared context, the
output written so far, and the exception that escaped, if any. -/
structure Machine (G : Type) where
  st : SState
  blockAcc : Str
  indentWidth : Nat
  g : G
  out : Str
  err : Option PyExn
deriving DecidableEq

/-- One iteration of the scanning loop (source lines 118-150) on one input
line.  A pass whose snippet raised does nothing further (the exception is in
flight).  In "hdl": a fence line opens a block recording the indentation and
emitting nothing; a marker-bearing line is reconstructed by substInline and
written unless entirely whitespace; any other line is written unchanged.
In "block": a fence line runs the body, writes its indented capture and
returns to "hdl"; any other line joins the body with the first
`indentWidth` characters sliced off. -/
def step {G : Type} (evI evB : Ev G) (m : Machine G) (l : Str) : Machine G :=
  if m.err.isSome then m
  else
    match m.st with
    | .hdl =>
      if startsFence l then
        { m with st := .block, indentWidth := leadWsCount l }
      else if hasTick l then
        match substInline evI l m.g with
        | (g', Except.error e) => { m with g := g', err := some e }
        | (g', Except.ok ans) =>
          if pyStrip ans = [] then { m with g := g' }
          else { m with g := g', out := m.out ++ ans }
      else { m with out := m.out ++ l }
    | .block =>
      if startsFence l then
        match evB m.blockAcc m.g with
        | (g', Except.error e) => { m with g := g', err := some e }
        | (g', Except.ok res) =>
          { m with st := .hdl, g := g',
                   out := m.out ++ add_space (orEmpty res) m.indentWidth,
                   blockAcc := [], indentWidth := 0 }
      else { m with blockAcc := m.blockAcc ++ l.drop m.indentWidth }

/-- The machine as parse sets it up before the loop: state "hdl", empty
accumulator, indentation zero, the context after pre_context_run, nothing
written, no exception. -/
def initMachine {G : Type} (pcr : G → G) (g0 : G) : Machine G :=
  ⟨.hdl, [], 0, pcr g0, [], none⟩

/-- The scanning loop over the document's lines. -/
def runLines {G : Type} (evI evB : Ev G) (m : Machine G) (lines : List Str) :
    Machine G :=
  lines.foldl (step evI evB) m

/-- What parse does after its loop (source lines 151-155): an escaped
snippet exception propagates at once, with the output written so far and
the context as the snippet left it; otherwise global_dict is reassigned to
the empty context (line 152) and then, if a block is still open, the
SyntaxError of line 154 is raised. -/
def finishPass {G : Type} (emptyCtx : G) (m : Machine G) :
    Str × G × Except PErr Unit :=
  match m.err with
  | some e => (m.out, m.g, .error (.pyRaise e))
  | none =>
    if m.st = .block then (m.out, emptyCtx, .error .unclosed)
    else (m.out, emptyCtx, .ok ())

/-- parse (source lines 94-155).  Returns the triple (output written, final
shared context, outcome of the pass). -/
def parse {G : Type} (evI evB : Ev G) (pcr : G → G) (emptyCtx : G)
    (lines : List Str) (g0 : G) : Str × G × Except PErr Unit :=
  finishPass emptyCtx (runLines evI evB (initMachine pcr g0) lines)

/-! ## Concrete instantiations used to evaluate the model on sample inputs

The shared context is instantiated as the list of names the snippets have
bound so far; the oracles below encode the behaviour of specific small
Python fragments. -/

/-- A concrete context type: the list of names bound in global_dict. -/
abbrev Gx := List Str

/-- An oracle whose fragments all succeed with the empty replacement. -/
def evIdent : Ev Gx := fun _ g => (g, Except.ok [])

/-- An oracle knowing one fragment, "x", whose value prints as "1". -/
def evX : Ev Gx := fun src g =>
  if src = ['x'] then (g, Except.ok ['1']) else (g, Except.error ['?'])

/-- A block oracle whose body's captured output is "  x" plus newline:
the embedded code printed a line that itself begins with two spaces. -/
def evBlk : Ev Gx := fun _ g => (g, Except.ok [' ', ' ', 'x', '\n'])

/-- An inline oracle: a statement fragment that defines the name "x" in the
context and then raises (models the fragment "x=1; 1/0", which binds x and
then raises ZeroDivisionError). -/
def evDefThenRaise : Ev Gx := fun _ g =>
  ("x".toList :: g, Except.error ("boom".toList))

/-- An inline oracle for the fragment "x": an expression that evaluates to
the value of x when x is bound in the context and raises NameError
otherwise. -/
def evLookup : Ev Gx := fun src g =>
  if src = ['x'] then
    if g.contains ("x".toList) then (g, Except.ok ['1'])
    else (g, Except.error ("NameError".toList))
  else (g, Except.error ['?'])

/-- pre_context_run's context effect: exec("import sys") binds "sys". -/
def pcrSys : Gx → Gx := fun g => "sys".toList :: g

/-- A document with no marker character on any line. -/
def docPlain : List Str := [['h', 'i', '\n'], ['x', '\n']]

/-- A document whose single block is opened at indentation 1. -/
def docBlock : List Str :=
  [[' ', tick, tick, tick, '\n'], ['p', '\n'], [' ', tick, tick, tick, '\n']]

/-- A one-line document holding the single inline fragment "x=1; 1/0". -/
def docPass1 : List Str := [[tick] ++ "x=1; 1/0".toList ++ [tick, '\n']]

/-- A one-line document holding the single inline fragment "x". -/
def docPass2 : List Str := [[tick, 'x', tick, '\n']]

/-- Lines before an unclosed fence. -/
def preU : List Str := [['a', '\n']]

/-- A fence line at indentation 0. -/
def fenceU : Str := [tick, tick, tick, '\n']

/-- Block body lines after the unclosed fence. -/
def bodyU : List Str := [['y', '\n']]

/-- The semantics of a snippet that prints "p" and then raises "e",
having touched nothing in the context. -/
def runBad : Gx → Gx × Str × Except PyExn PyVal :=
  fun g => (g, ['p'], Except.error ['e'])

/-- The semantics of an expression fragment evaluating to the integer 0
(a falsy value) without printing anything. -/
def runZero : Gx → Gx × Str × Except PyExn PyVal :=
  fun g => (g, [], Except.ok (PyVal.pyInt 0))

/-- The fragment-semantics map sending every inline source to runZero. -/
def semZero : Str → Frag Gx := fun _ => ⟨true, runZero⟩

/-! ## Helper lemmas -/

theorem orEmpty_eq (r : Str) : orEmpty r = r := by
  unfold orEmpty
  split
  · rename_i h
    exact h.symm
  · rfl

theorem pyStrip_sublist (l : Str) : List.Sublist (pyStrip l) l := by
  unfold pyStrip
  have h1 : List.Sublist (l.dropWhile isPyWs) l := List.dropWhile_sublist _
  have h2 : List.Sublist ((l.dropWhile isPyWs).reverse.dropWhile isPyWs)
      (l.dropWhile isPyWs).reverse := List.dropWhile_sublist _
  have h3 := h2.reverse
  rw [List.reverse_reverse] at h3
  exact h3.trans h1

theorem count_pyStrip_le (l : Str) (c : Char) :
    (pyStrip l).count c ≤ l.count c :=
  (pyStrip_sublist l).count_le c

theorem mem_dropWhile_of_mem {c : Char} {p : Char → Bool} (hc : p c = false) :
    ∀ {l : Str}, c ∈ l → c ∈ l.dropWhile p := by
  intro l h
  induction l with
  | nil => cases h
  | cons a t ih =>
    rw [List.dropWhile_cons]
    cases hpa : p a with
    | false => simpa [hpa] using h
    | true =>
      simp only [hpa, if_pos]
      rcases List.mem_cons.mp h with h1 | h1
      · subst h1
        rw [hc] at hpa
        cases hpa
      · exact ih h1

theorem mem_pyStrip_of_mem {c : Char} {l : Str} (hc : isPyWs c = false)
    (h : c ∈ l) : c ∈ pyStrip l := by
  unfold pyStrip
  rw [List.mem_reverse]
  exact mem_dropWhile_of_mem hc (List.mem_reverse.mpr (mem_dropWhile_of_mem hc h))

theorem pyStrip_ne_nil_of_tick {l : Str} (h : tick ∈ l) : pyStrip l ≠ [] := by
  intro he
  have hmem := mem_pyStrip_of_mem (c := tick) (by decide) h
  rw [he] at hmem
  cases hmem

theorem hasTick_iff {l : Str} : hasTick l = true ↔ tick ∈ l := by
  induction l with
  | nil => simp [hasTick]
  | cons a t ih =>
    rw [hasTick, Bool.or_eq_true, beq_iff_eq, ih, List.mem_cons]
    exact or_congr_left eq_comm

theorem hasTick_eq_false_iff {l : Str} : hasTick l = false ↔ tick ∉ l := by
  rw [← Bool.not_eq_true, not_iff_not]
  exact hasTick_iff

theorem hasTick_append (a b : Str) :
    hasTick (a ++ b) = (hasTick a || hasTick b) := by
  induction a with
  | nil => simp [hasTick]
  | cons c t ih => simp [hasTick, ih, Bool.or_assoc]

theorem startsFence_eq_false_of_noTick {l : Str} (h : hasTick l = false) :
    startsFence l = false := by
  have hmem : tick ∉ pyStrip l :=
    fun hc => hasTick_eq_false_iff.mp h ((pyStrip_sublist l).subset hc)
  unfold startsFence
  cases hps : pyStrip l with
  | nil => rfl
  | cons a t =>
    cases t with
    | nil => rfl
    | cons b t2 =>
      cases t2 with
      | nil => rfl
      | cons c t3 =>
        have ha : a ≠ tick := by
          intro hEq
          apply hmem
          rw [hps, hEq]
          exact List.mem_cons_self _ _
        have : (a == tick) = false := beq_eq_false_iff_ne.mpr ha
        simp [this]

theorem two_le_count_of_startsFence {l : Str} (h : startsFence l = true) :
    2 ≤ l.count tick := by
  unfold startsFence at h
  cases hps : pyStrip l with
  | nil => rw [hps] at h; cases h
  | cons a t =>
    cases t with
    | nil => rw [hps] at h; cases h
    | cons b t2 =>
      cases t2 with
      | nil => rw [hps] at h; cases h
      | cons c t3 =>
        rw [hps] at h
        simp only [Bool.and_eq_true, beq_iff_eq] at h
        obtain ⟨⟨ha, hb⟩, hc⟩ := h
        have hcount : 2 ≤ (pyStrip l).count tick := by
          rw [hps, ha, hb]
          simp [List.count_cons]
        exact hcount.trans (count_pyStrip_le l tick)

theorem startsFence_single_tick {a b : Str} (ha : hasTick a = false)
    (hb : hasTick b = false) : startsFence (a ++ tick :: b) = false := by
  cases hsf : startsFence (a ++ tick :: b) with
  | false => rfl
  | true =>
    exfalso
    have h2 := two_le_count_of_startsFence hsf
    have hca : a.count tick = 0 :=
      List.count_eq_zero.mpr (hasTick_eq_false_iff.mp ha)
    have hcb : b.count tick = 0 :=
      List.count_eq_zero.mpr (hasTick_eq_false_iff.mp hb)
    rw [List.count_append, List.count_cons, hca, hcb] at h2
    simp at h2

theorem substGo_inside_noTick {G : Type} (ev : Ev G) :
    ∀ (b acc : Str) (g : G), hasTick b = false →
      substGo ev b (some acc) g = (g, Except.ok (tick :: (acc.reverse ++ b))) := by
  intro b
  induction b with
  | nil =>
    intro acc g _
    simp [substGo]
  | cons c t ih =>
    intro acc g hb
    rw [hasTick] at hb
    have hc : (c == tick) = false := by
      cases hcc : c == tick with
      | false => rfl
      | true => rw [hcc] at hb; simp at hb
    have ht : hasTick t = false := by
      rw [hc] at hb
      simpa using hb
    rw [substGo, if_neg (by simp [hc])]
    rw [ih (c :: acc) g ht]
    simp

theorem substGo_outside_lit {G : Type} (ev : Ev G) :
    ∀ (a : Str) (b : Str) (g : G), hasTick a = false → hasTick b = false →
      substGo ev (a ++ tick :: b) none g = (g, Except.ok (a ++ tick :: b)) := by
  intro a
  induction a with
  | nil =>
    intro b g _ hb
    rw [List.nil_append, substGo, if_pos (by simp)]
    rw [substGo_inside_noTick ev b [] g hb]
    simp
  | cons c t ih =>
    intro b g ha hb
    rw [hasTick] at ha
    have hc : (c == tick) = false := by
      cases hcc : c == tick with
      | false => rfl
      | true => rw [hcc] at ha; simp at ha
    have ht : hasTick t = false := by
      rw [hc] at ha
      simpa using ha
    rw [List.cons_append, substGo, if_neg (by simp [hc])]
    rw [ih b g ht hb]

theorem runLines_nil {G : Type} (evI evB : Ev G) (m : Machine G) :
    runLines evI evB m [] = m := rfl

theorem runLines_cons {G : Type} (evI evB : Ev G) (m : Machine G) (l : Str)
    (ls : List Str) :
    runLines evI evB m (l :: ls) = runLines evI evB (step evI evB m l) ls := rfl

theorem runLines_append {G : Type} (evI evB : Ev G) (m : Machine G)
    (xs ys : List Str) :
    runLines evI evB m (xs ++ ys) = runLines evI evB (runLines evI evB m xs) ys :=
  List.foldl_append _ _ xs ys

theorem step_hdl_noTick {G : Type} (evI evB : Ev G) {m : Machine G} {l : Str}
    (he : m.err = none) (hs : m.st = SState.hdl) (hl : hasTick l = false) :
    step evI evB m l = { m with out := m.out ++ l } := by
  unfold step
  simp [he, hs, startsFence_eq_false_of_noTick hl, hl]

theorem step_hdl_fence {G : Type} (evI evB : Ev G) {m : Machine G} {l : Str}
    (he : m.err = none) (hs : m.st = SState.hdl) (hf : startsFence l = true) :
    step evI evB m l = { m with st := SState.block, indentWidth := leadWsCount l } := by
  unfold step
  simp [he, hs, hf]

theorem step_block_noFence {G : Type} (evI evB : Ev G) {m : Machine G} {l : Str}
    (he : m.err = none) (hs : m.st = SState.block) (hf : startsFence l = false) :
    step evI evB m l = { m with blockAcc := m.blockAcc ++ l.drop m.indentWidth } := by
  unfold step
  simp [he, hs, hf]

theorem runLines_noTick {G : Type} (evI evB : Ev G) :
    ∀ (lines : List Str) (m : Machine G), m.err = none → m.st = SState.hdl →
      (∀ l ∈ lines, hasTick l = false) →
      runLines evI evB m lines = { m with out := m.out ++ lines.flatten } := by
  intro lines
  induction lines with
  | nil =>
    intro m _ _ _
    simp [runLines_nil]
  | cons l ls ih =>
    intro m he hs hall
    rw [runLines_cons, step_hdl_noTick evI evB he hs (hall l (by simp))]
    rw [ih { m with out := m.out ++ l } he hs (fun x hx => hall x (by simp [hx]))]
    simp

theorem runLines_block_noFence {G : Type} (evI evB : Ev G) :
    ∀ (body : List Str) (m : Machine G), m.err = none → m.st = SState.block →
      (∀ l ∈ body, startsFence l = false) →
      ∃ acc, runLines evI evB m body = { m with blockAcc := acc } := by
  intro body
  induction body with
  | nil =>
    intro m _ _ _
    exact ⟨m.blockAcc, by simp [runLines_nil]⟩
  | cons l ls ih =>
    intro m he hs hall
    rw [runLines_cons, step_block_noFence evI evB he hs (hall l (by simp))]
    obtain ⟨acc, hacc⟩ :=
      ih { m with blockAcc := m.blockAcc ++ l.drop m.indentWidth } he hs
        (fun x hx => hall x (by simp [hx]))
    exact ⟨acc, hacc⟩

/-! ## Claim theorems -/

/-- C7: for every document none of whose lines contain the marker
character, a pass writes exactly the input: the output is the
concatenation of the input lines, unchanged, the pass succeeds, and the
context ends empty. -/
theorem parse_identity_no_marker {G : Type} (evI evB : Ev G) (pcr : G → G)
    (emptyCtx : G) (lines : List Str) (g0 : G)
    (h : ∀ l ∈ lines, hasTick l = false) :
    parse evI evB pcr emptyCtx lines g0 = (lines.flatten, emptyCtx, Except.ok ()) := by
  unfold parse
  rw [runLines_noTick evI evB lines (initMachine pcr g0) rfl rfl h]
  unfold finishPass initMachine
  simp

/-- Witness for C7: the two-line marker-free document docPlain passes
through byte for byte. -/
theorem parse_identity_no_marker_witness :
    parse evIdent evIdent id ([] : Gx) docPlain [] =
      (['h', 'i', '\n', 'x', '\n'], [], Except.ok ()) :=
  (parse_identity_no_marker evIdent evIdent id [] docPlain [] (by decide)).trans
    (by decide)

/-- C6: a document whose scan reaches a fence-opening line in the plain
state and never sees another fence line afterwards raises the
malformed-input (unclosed block) error, and the output holds exactly what
was written before the open fence: neither the fence line, nor the
accumulated body lines, nor any would-be block result is written. -/
theorem parse_unclosed_block {G : Type} (evI evB : Ev G) (pcr : G → G)
    (emptyCtx : G) (pre : List Str) (f : Str) (body : List Str) (g0 : G)
    (hf : startsFence f = true)
    (hbody : ∀ l ∈ body, startsFence l = false)
    (hst : (runLines evI evB (initMachine pcr g0) pre).st = SState.hdl)
    (herr : (runLines evI evB (initMachine pcr g0) pre).err = none) :
    parse evI evB pcr emptyCtx (pre ++ f :: body) g0 =
      ((runLines evI evB (initMachine pcr g0) pre).out, emptyCtx,
        Except.error PErr.unclosed) := by
  unfold parse
  rw [runLines_append, runLines_cons, step_hdl_fence evI evB herr hst hf]
  obtain ⟨acc, hacc⟩ :=
    runLines_block_noFence evI evB body
      { runLines evI evB (initMachine pcr g0) pre with
          st := SState.block, indentWidth := leadWsCount f }
      herr rfl hbody
  rw [hacc]
  unfold finishPass
  simp [herr]

/-- Witness for C6: the fence after line "a" is never closed; only "a" is
in the output and the unclosed error is raised. -/
theorem parse_unclosed_block_witness :
    parse evX evBlk id ([] : Gx) (preU ++ fenceU :: bodyU) [] =
      (['a', '\n'], [], Except.error PErr.unclosed) :=
  (parse_unclosed_block evX evBlk id [] preU fenceU bodyU []
      (by decide) (by decide) (by decide) (by decide)).trans (by decide)

/-- C8: in the plain state, a marker-bearing (non-fence) line whose
reconstruction after substituting every fragment strips to nothing is not
emitted at all: the machine keeps its output (and everything else except
the context) unchanged. -/
theorem step_suppresses_blank_line {G : Type} (evI evB : Ev G)
    (m : Machine G) (l : Str) (g' : G) (ans : Str)
    (he : m.err = none) (hs : m.st = SState.hdl)
    (hf : startsFence l = false) (ht : hasTick l = true)
    (hsub : substInline evI l m.g = (g', Except.ok ans))
    (hblank : pyStrip ans = []) :
    step evI evB m l = { m with g := g' } := by
  unfold step
  simp [he, hs, hf, ht, hsub, hblank]

/-- Witness for C8: the line consisting solely of the fragment "e" with
empty result (so the reconstructed line is the bare newline) leaves the
machine's output empty — the line disappears entirely. -/
theorem step_suppresses_blank_line_witness :
    step evIdent evBlk (initMachine id ([] : Gx)) [tick, 'e', tick, '\n'] =
      initMachine id [] :=
  (step_suppresses_blank_line evIdent evBlk (initMachine id ([] : Gx))
      [tick, 'e', tick, '\n'] [] ['\n']
      rfl rfl (by decide) (by decide) (by decide) (by decide)).trans (by decide)

/-- C10: in the plain state, a line holding exactly one marker character
(hence no complete marker pair) is emitted literally: the unpaired marker
is neither evaluated — the context is untouched, whatever the oracle
does — nor removed from the line. -/
theorem step_unpaired_marker_literal {G : Type} (evI evB : Ev G)
    (m : Machine G) (a b : Str)
    (he : m.err = none) (hs : m.st = SState.hdl)
    (ha : hasTick a = false) (hb : hasTick b = false) :
    step evI evB m (a ++ tick :: b) = { m with out := m.out ++ (a ++ tick :: b) } := by
  have hf := startsFence_single_tick ha hb
  have htick : hasTick (a ++ tick :: b) = true := by
    rw [hasTick_append, hasTick]
    simp
  have hsub : substInline evI (a ++ tick :: b) m.g =
      (m.g, Except.ok (a ++ tick :: b)) :=
    substGo_outside_lit evI a b m.g ha hb
  have hne : pyStrip (a ++ tick :: b) ≠ [] :=
    pyStrip_ne_nil_of_tick (by simp)
  unfold step
  simp [he, hs, hf, htick, hsub, hne]

/-- Witness for C10: the line "a" ++ marker ++ "b" with its single unpaired
marker passes through unchanged, even though the inline oracle would reject
every fragment. -/
theorem step_unpaired_marker_literal_witness :
    step evX evIdent (initMachine id ([] : Gx)) (['a'] ++ tick :: ['b', '\n']) =
      { initMachine id ([] : Gx) with out := ['a', tick, 'b', '\n'] } :=
  (step_unpaired_marker_literal evX evIdent (initMachine id []) ['a'] ['b', '\n']
      rfl rfl (by decide) (by decide)).trans (by decide)

/-- C9: an inline fragment in expression mode, called as parse calls it
(with the process's real standard output installed), performs no
redirection: sys.stdout is still the real output stream afterwards,
whatever the expression printed went to the real output stream and not
into the document, and the replacement text is solely str of the
expression's value (on a raised error, the error propagates). -/
theorem exec_inline_expr_no_redirect {G : Type}
    (run : G → G × Str × Except PyExn PyVal) (g : G) :
    exec_inline ⟨true, run⟩ g StdoutTgt.real =
      ⟨(run g).1, StdoutTgt.real, (run g).2.1, ((run g).2.2).map pyStr⟩ := by
  rcases h : run g with ⟨g1, printed, r⟩
  simp [exec_inline, h]

/-- C1 counterexample: the statement-mode evaluators with a body that
prints "p" and then raises (runBad) do NOT restore the standard output
stream: after the call sys.stdout is the capture buffer (holding "p"), not
the real output stream it pointed to before the call, while the error
propagates.  The restore at source lines 67 and 79 sits after the exec
with no try/finally, so it is skipped on the error path. -/
theorem exec_no_restore_on_error_cex :
    (exec_block runBad [] StdoutTgt.real).stdoutAfter = StdoutTgt.buf ['p'] ∧
    (exec_block runBad [] StdoutTgt.real).stdoutAfter ≠ StdoutTgt.real ∧
    (exec_block runBad [] StdoutTgt.real).result = Except.error ['e'] ∧
    (exec_inline ⟨false, runBad⟩ [] StdoutTgt.real).stdoutAfter = StdoutTgt.buf ['p'] ∧
    (exec_inline ⟨false, runBad⟩ [] StdoutTgt.real).stdoutAfter ≠ StdoutTgt.real := by
  decide

/-- C1 amended: for statement-mode inline fragments and for block bodies,
the pre-call standard output stream is restored only when execution
succeeds; when execution raises, the error propagates with sys.stdout left
pointing at the capture buffer (holding whatever was printed before the
raise). -/
theorem exec_restore_only_on_success {G : Type}
    (run : G → G × Str × Except PyExn PyVal) (g : G) (so : StdoutTgt) :
    (exec_block run g so).stdoutAfter =
      (match (run g).2.2 with
       | Except.ok _ => so
       | Except.error _ => StdoutTgt.buf (run g).2.1) ∧
    (exec_inline ⟨false, run⟩ g so).stdoutAfter =
      (match (run g).2.2 with
       | Except.ok _ => so
       | Except.error _ => StdoutTgt.buf (run g).2.1) ∧
    (exec_block run g so).result =
      (match (run g).2.2 with
       | Except.ok _ => Except.ok (run g).2.1
       | Except.error e => Except.error e) ∧
    (exec_inline ⟨false, run⟩ g so).result = (exec_block run g so).result := by
  rcases h : run g with ⟨g1, printed, r⟩
  cases r <;> simp [exec_block, exec_inline, h]

/-- C2 counterexample: pass 1 runs the document holding the single inline
statement fragment "x=1; 1/0", whose execution binds the name x and then
raises; the pass ends with the snippet-execution error and the shared
context still holding x (and the "sys" binding made by pre_context_run) —
it is not emptied, because global_dict is cleared only after the loop,
which the exception skips.  Pass 2, started from that leaked context on the
document holding the expression fragment "x", sees x bound and splices its
value — a name defined in pass 1 is visible in a subsequent pass. -/
theorem parse_context_leak_cex :
    parse evDefThenRaise evIdent pcrSys ([] : Gx) docPass1 [] =
      ([], ["x".toList, "sys".toList], Except.error (PErr.pyRaise ("boom".toList))) ∧
    (["x".toList, "sys".toList] : Gx) ≠ [] ∧
    parse evLookup evIdent pcrSys ([] : Gx) docPass2 ["x".toList, "sys".toList] =
      (['1', '\n'], [], Except.ok ()) := by
  decide

/-- C2 amended: the shared context is emptied when the pass reaches the
end of its input — on success and also on the malformed-input (unclosed
fence) failure — but not when a snippet-execution error aborts the pass:
the exception propagates before the clearing, so the context survives into
the next pass. -/
theorem parse_clears_context_unless_snippet_raises {G : Type}
    (evI evB : Ev G) (pcr : G → G) (emptyCtx : G) (lines : List Str) (g0 : G)
    (h : (parse evI evB pcr emptyCtx lines g0).2.2 = Except.ok () ∨
         (parse evI evB pcr emptyCtx lines g0).2.2 = Except.error PErr.unclosed) :
    (parse evI evB pcr emptyCtx lines g0).2.1 = emptyCtx := by
  unfold parse finishPass at *
  cases herr : (runLines evI evB (initMachine pcr g0) lines).err with
  | some e =>
    rw [herr] at h
    simp at h
  | none =>
    dsimp only
    split <;> rfl

/-- Witness for C2 amended: a successful pass over docPlain, started from
a non-empty context and a context setup that binds "sys", still ends with
the context emptied. -/
theorem parse_clears_context_witness :
    (parse evIdent evIdent pcrSys ([] : Gx) docPlain [['q']]).2.1 = [] ∧
    (parse evIdent evIdent pcrSys ([] : Gx) docPlain [['q']]).2.2 = Except.ok () :=
  ⟨parse_clears_context_unless_snippet_raises evIdent evIdent pcrSys []
      docPlain [['q']] (Or.inl (by decide)), by decide⟩

/-- C3 counterexample: the inline expression fragment "0" evaluates to the
falsy value 0, yet the pass splices "0" — the line becomes "0" plus
newline, not the empty output the claim predicts (were the empty string
spliced, the whitespace-only line would be suppressed entirely).  The
falsy test at source line 131 inspects the already-converted string
str(0) = "0", which is non-empty and hence truthy. -/
theorem inline_falsy_value_cex :
    parse (inlineOracle semZero) evIdent id ([] : Gx)
        [[tick, '0', tick, '\n']] [] = (['0', '\n'], [], Except.ok ()) ∧
    pyTruthy (PyVal.pyInt 0) = false ∧
    (['0', '\n'] : Str) ≠ [] := by
  decide

/-- C3 amended: for an inline expression fragment the spliced text is
str of the resulting value, whatever its truthiness; the falsy-result
normalisation of source line 131 (orEmpty) never changes it, so the
spliced text is empty exactly when str of the value is the empty string —
not when the value itself is falsy. -/
theorem inline_expr_splices_str_form {G : Type}
    (run : G → G × Str × Except PyExn PyVal) (g g' : G) (p : Str) (v : PyVal)
    (h : run g = (g', p, Except.ok v)) :
    (exec_inline ⟨true, run⟩ g StdoutTgt.real).result = Except.ok (pyStr v) ∧
    orEmpty (pyStr v) = pyStr v := by
  refine ⟨?_, orEmpty_eq _⟩
  simp [exec_inline, h, Except.map]

/-- Witness for C3 amended at the falsy value 0: the spliced text is "0". -/
theorem inline_expr_splices_str_form_witness :
    (exec_inline ⟨true, runZero⟩ ([] : Gx) StdoutTgt.real).result =
      Except.ok ['0'] ∧ orEmpty ['0'] = ['0'] :=
  have h := inline_expr_splices_str_form runZero ([] : Gx) [] []
    (PyVal.pyInt 0) rfl
  ⟨h.1.trans (by decide), by decide⟩

/-- C4 counterexample: initializing with the path sequence ["a", "b"] over
an existing search order ["z"] yields ["b", "a", "z"]: the paths appear in
REVERSED order, and the head (highest-priority entry) is the LAST given
path, not the first as the claim states. -/
theorem pre_context_run_order_cex :
    pre_context_run [['a'], ['b']] [['z']] = [['b'], ['a'], ['z']] ∧
    pre_context_run [['a'], ['b']] [['z']] ≠ [['a'], ['b'], ['z']] ∧
    (pre_context_run [['a'], ['b']] [['z']]).head? ≠ some ['a'] := by
  decide

/-- C4 amended: each given path is inserted at position 0 in turn, so the
resulting search order is the given sequence REVERSED, followed by the
pre-existing entries: the LAST path of the given sequence has the highest
resolution priority, and all given paths precede the pre-existing ones. -/
theorem pre_context_run_reversed (ps old : List Str) :
    pre_context_run ps old = ps.reverse ++ old := by
  induction ps generalizing old with
  | nil => rfl
  | cons p pt ih =>
    have hstep : pre_context_run (p :: pt) old = pre_context_run pt (p :: old) := rfl
    rw [hstep, ih, List.reverse_cons, List.append_assoc]
    rfl

/-- C5 counterexample: a block opened at indentation 1 (fence line
" " ++ fence) whose body's captured output is the single line "  x" —
carrying two leading spaces of its own — is emitted as "   x": it begins
with three spaces, not exactly the one space of the block's indentation,
because add_space prepends the indentation without discarding the line's
own leading whitespace. -/
theorem add_space_exact_indent_cex :
    parse evX evBlk id ([] : Gx) docBlock [] =
      ([' ', ' ', ' ', 'x', '\n'], [], Except.ok ()) ∧
    leadWsCount [' ', tick, tick, tick, '\n'] = 1 ∧
    (([' ', ' ', ' ', 'x'].takeWhile (fun c => c == ' ')).length = 3 ∧ 3 ≠ 1) := by
  decide

/-- C5 amended: each blank line (one that strips to nothing) of the
captured output is dropped entirely, and each non-blank line is emitted as
exactly the block's indentation in spaces, followed by the line INCLUDING
its own leading whitespace, followed by a newline — so an output line
begins with the indentation plus whatever leading whitespace the embedded
code's own output carried. -/
theorem add_space_keeps_own_indent (s : Str) (w : Nat) :
    add_space s w =
      (((splitNl s).filter (fun i => pyStrip i != [])).map
        (fun i => spacesN w ++ i ++ ['\n'])).flatten := by
  unfold add_space
  generalize splitNl s = ls
  induction ls with
  | nil => rfl
  | cons i rest ih =>
    by_cases h : pyStrip i = []
    · simp [addSpaceGo, h, ih]
    · simp [addSpaceGo, h, ih]
